import Mathlib

/-!
Work Clicker: verification of the progression and reward engine.

Shallow embedding of the incremental-clicker engine implemented in
`src/App.tsx` / `src/types.ts`.  JavaScript numbers are modelled as exact
rationals (`ℚ`), timestamps as integers (`ℤ`, epoch milliseconds), upgrade
identifiers as strings, and the job catalog as a list of `Job` records.

The job catalog itself lives in `constants.ts`, which is not part of the
sources; every definition and theorem is therefore parametrised by a catalog
`JOBS : List Job`, with the data-model conditions the specification imposes on
the catalog (non-negative costs and earning rates, unique upgrade ids within a
job) taken as explicit hypotheses.
-/

namespace WorkClicker

/-- The enum `GameState` from `src/types.ts`: the four ledger states. -/
inductive GameState where
  | START
  | WORKING
  | CHOOSE_JOB
  | END
deriving DecidableEq, Repr

/-- The interface `Upgrade` from `src/types.ts`.  The optional bonus fields are `Option ℚ`
(`none` models an absent field). -/
structure Upgrade where
  id : String
  name : String
  cost : ℚ
  bonusClick : Option ℚ
  bonusSec : Option ℚ
deriving DecidableEq, Repr

/-- The interface `Job` from `src/types.ts`. -/
structure Job where
  id : Nat
  name : String
  icon : String
  baseClick : ℚ
  baseSec : ℚ
  upgrades : List Upgrade
  minMoneyToResign : ℚ
deriving DecidableEq, Repr

/-- The interface `PlayerState` from `src/types.ts`. -/
structure PlayerState where
  money : ℚ
  totalMoneyEarned : ℚ
  currentJobIndex : Nat
  purchasedUpgrades : List String
  unlockedJobs : List Nat
  lastSpinTime : ℤ
deriving DecidableEq, Repr

/-- The fresh player state created on first run and by `restartGame`
(`App.tsx` lines 28-35 and 257-264). -/
def freshPlayer : PlayerState :=
  { money := 0
    totalMoneyEarned := 0
    currentJobIndex := 0
    purchasedUpgrades := []
    unlockedJobs := [0]
    lastSpinTime := 0 }

/-- The constant `ROULETTE_COOLDOWN = 10 * 60 * 1000` (`App.tsx` line 6), in milliseconds. -/
def ROULETTE_COOLDOWN : ℤ := 10 * 60 * 1000

/-- The cooldown computation of the timer effect (`App.tsx` lines 100-111):
`remaining = Math.max(0, ROULETTE_COOLDOWN - (now - lastSpinTime))`. -/
def remaining (now lastSpinTime : ℤ) : ℤ :=
  max 0 (ROULETTE_COOLDOWN - (now - lastSpinTime))

/-- The contribution a single purchased-upgrade id makes in
`calculateClickEarnings` (`App.tsx` lines 115-122): the id is looked up in the
upgrade list of the current job, and its `bonusClick` is added when present
and truthy (a defined, non-zero number); a falsy or missing bonus contributes
nothing, rendered here as adding `0`. -/
def clickBonus (job : Job) (uid : String) : ℚ :=
  match job.upgrades.find? (fun u => u.id == uid) with
  | some u =>
      match u.bonusClick with
      | some b => if b = 0 then 0 else b
      | none => 0
  | none => 0

/-- The function `calculateClickEarnings` (`App.tsx` lines 115-122): starts from
`currentJob.baseClick` and folds the purchased-upgrade ids, adding each
truthy `bonusClick`. -/
def calculateClickEarnings (job : Job) (purchased : List String) : ℚ :=
  purchased.foldl (fun earnings uid => earnings + clickBonus job uid) job.baseClick

/-- The contribution a single purchased-upgrade id makes in
`calculateSecEarnings` (`App.tsx` lines 124-131). -/
def secBonus (job : Job) (uid : String) : ℚ :=
  match job.upgrades.find? (fun u => u.id == uid) with
  | some u =>
      match u.bonusSec with
      | some b => if b = 0 then 0 else b
      | none => 0
  | none => 0

/-- The function `calculateSecEarnings` (`App.tsx` lines 124-131). -/
def calculateSecEarnings (job : Job) (purchased : List String) : ℚ :=
  purchased.foldl (fun earnings uid => earnings + secBonus job uid) job.baseSec

/-- The handler `handleWorkClick` (`App.tsx` lines 164-178), restricted to its effect on
`PlayerState`: credits the click earnings to both `money` and
`totalMoneyEarned`. -/
def handleWorkClick (job : Job) (p : PlayerState) : PlayerState :=
  { p with
    money := p.money + calculateClickEarnings job p.purchasedUpgrades
    totalMoneyEarned := p.totalMoneyEarned + calculateClickEarnings job p.purchasedUpgrades }

/-- One firing of the passive-income interval body (`App.tsx` lines 136-145):
when the per-second earnings are positive they are credited to `money` and
`totalMoneyEarned`, otherwise nothing happens. -/
def tickApply (job : Job) (p : PlayerState) : PlayerState :=
  let earnings := calculateSecEarnings job p.purchasedUpgrades
  if 0 < earnings then
    { p with
      money := p.money + earnings
      totalMoneyEarned := p.totalMoneyEarned + earnings }
  else p

/-- The passive-income effect including its guard (`App.tsx` lines 133-148):
`if (gameState !== GameState.WORKING) return;` — outside `WORKING` no interval
is installed and a timer tick leaves the state untouched.  Inside `WORKING`
the current job is read from the catalog (an out-of-bounds index yields no
job; in JavaScript that access would fault, and it is unreachable from the
fresh state, so it is rendered as leaving the state unchanged). -/
def passiveTick (JOBS : List Job) (gs : GameState) (p : PlayerState) : PlayerState :=
  if gs = GameState.WORKING then
    match JOBS[p.currentJobIndex]? with
    | some job => tickApply job p
    | none => p
  else p

/-- The fixed multiplier array `[0.1, 0.2, 0.5, 1, 2, 5, 10]`
(`App.tsx` line 206). -/
def rewards : List ℚ := [1/10, 1/5, 1/2, 1, 2, 5, 10]

/-- The committing part of `handleSpinRoulette` (`App.tsx` lines 200-223):
`potential = calculateClickEarnings() * 20 + calculateSecEarnings() * 100`,
one multiplier is drawn from `rewards` (the random draw is modelled by the
injected index `r : Fin 7`), and `wonAmount = potential * multiplier` is
credited to `money` and `totalMoneyEarned` while `lastSpinTime` is set to the
commit time `now`. -/
def handleSpinRoulette (job : Job) (now : ℤ) (r : Fin 7) (p : PlayerState) : PlayerState :=
  let potential := calculateClickEarnings job p.purchasedUpgrades * 20
      + calculateSecEarnings job p.purchasedUpgrades * 100
  let wonAmount := potential * rewards.get ⟨r.val, r.isLt⟩
  { p with
    money := p.money + wonAmount
    totalMoneyEarned := p.totalMoneyEarned + wonAmount
    lastSpinTime := now }

/-- The handler `buyUpgrade` (`App.tsx` lines 226-237).  The boolean result records which
branch ran: `true` for the purchase branch (purchase sound), `false` for the
rejection branch (error sound).  On success the cost is deducted and the id
appended; on rejection the state is returned unchanged. -/
def buyUpgrade (u : Upgrade) (p : PlayerState) : Bool × PlayerState :=
  if u.cost ≤ p.money ∧ u.id ∉ p.purchasedUpgrades then
    (true,
      { p with
        money := p.money - u.cost
        purchasedUpgrades := p.purchasedUpgrades ++ [u.id] })
  else
    (false, p)

/-- Deduplication with JavaScript `Set` semantics
(`Array.from(new Set(xs))`): first occurrences are kept, in insertion
order. -/
def jsDedup (l : List Nat) : List Nat :=
  l.foldl (fun acc x => if x ∈ acc then acc else acc ++ [x]) []

/-- The handler `resign` (`App.tsx` lines 239-247), restricted to its effect on
`PlayerState`: clears `purchasedUpgrades` and adds `currentJobIndex + 1` to
`unlockedJobs` through a JavaScript `Set` round-trip.  The transition of the
ledger state to `CHOOSE_JOB` is modelled in the step relation and in
`resignIntent`. -/
def resign (p : PlayerState) : PlayerState :=
  { p with
    purchasedUpgrades := []
    unlockedJobs := jsDedup (p.unlockedJobs ++ [p.currentJobIndex + 1]) }

/-- The handler `startJob` (`App.tsx` lines 249-253), restricted to its effect on
`PlayerState`: it sets `currentJobIndex` and nothing else — in particular it
does not clear `purchasedUpgrades`. -/
def startJob (index : Nat) (p : PlayerState) : PlayerState :=
  { p with currentJobIndex := index }

/-- The resign intent as dispatched by the working screen
(`App.tsx` lines 366-383 and 239-247): the resign button is rendered only when
the current job is not the terminal catalog entry, is disabled while
`player.money < currentJob.minMoneyToResign`, and otherwise runs `resign` and
moves the ledger to `CHOOSE_JOB`.  A rejected attempt leaves both the ledger
state and the player state unchanged. -/
def resignIntent (JOBS : List Job) (gs : GameState) (p : PlayerState) :
    GameState × PlayerState :=
  match JOBS[p.currentJobIndex]? with
  | some job =>
      if p.currentJobIndex = JOBS.length - 1 then (gs, p)
      else if job.minMoneyToResign ≤ p.money then (GameState.CHOOSE_JOB, resign p)
      else (gs, p)
  | none => (gs, p)

/-- The buy intent as dispatched by the upgrade list
(`App.tsx` lines 409-416): a button exists exactly for the upgrades of the
current job, so an id that does not occur in `job.upgrades` produces no call
to `buyUpgrade` and the state is unchanged (rejection). -/
def buyUpgradeIntent (job : Job) (uid : String) (p : PlayerState) :
    Bool × PlayerState :=
  match job.upgrades.find? (fun u => u.id == uid) with
  | some u => buyUpgrade u p
  | none => (false, p)

/-- The logical schema of the persisted blob (spec §6); `lastSpinTime` is
optional so that a well-formed save written before the field existed can be
represented (`none` models the absent field). -/
structure SaveBlob where
  money : ℚ
  totalMoneyEarned : ℚ
  currentJobIndex : Nat
  purchasedUpgrades : List String
  unlockedJobs : List Nat
  lastSpinTime : Option ℤ
deriving DecidableEq, Repr

/-- The `useState` initializer for `player` (`App.tsx` lines 15-36).  The
argument distinguishes the three cases the code distinguishes: `none` — no
stored item; `some none` — a stored string on which `JSON.parse` throws (the
`catch` branch); `some (some b)` — a parsed blob.  On a parsed blob every
field is taken as-is except `lastSpinTime`, which is replaced by
`parsed.lastSpinTime || 0` (JavaScript truthiness: an absent or zero value
yields `0`). -/
def loadPlayer (stored : Option (Option SaveBlob)) : PlayerState :=
  match stored with
  | some (some b) =>
      { money := b.money
        totalMoneyEarned := b.totalMoneyEarned
        currentJobIndex := b.currentJobIndex
        purchasedUpgrades := b.purchasedUpgrades
        unlockedJobs := b.unlockedJobs
        lastSpinTime :=
          match b.lastSpinTime with
          | some v => if v = 0 then 0 else v
          | none => 0 }
  | some none => freshPlayer
  | none => freshPlayer

/-- A configuration of the whole engine: the ledger state (the `gameState`
`useState` hook) together with the player state. -/
structure Config where
  gameState : GameState
  player : PlayerState
deriving DecidableEq, Repr

/-- The user intents the presentation layer can dispatch into the engine. -/
inductive Op where
  | startCareer
  | click
  | tick
  | buy (u : Upgrade)
  | spin (now : ℤ) (r : Fin 7)
  | resign
  | startJob (i : Nat)
  | conclude
  | reset

/-- One engine transition, as enabled by the rendering and guard code of
`App.tsx`.  Each rule carries exactly the conditions under which the
corresponding handler can fire in the application:

* `startCareer`: the start button (line 285) moves `START` to `WORKING`;
* `click`: the work button exists only on the working screen (line 356);
* `tick`: the passive-income interval runs only while `WORKING` (line 134);
* `buy`: an upgrade button exists exactly for the upgrades of the current job
  (line 409) and runs `buyUpgrade`;
* `spin`: `handleSpinRoulette` (line 180) returns unless the cooldown has
  fully elapsed;
* `resign`: the resign button is rendered only off the terminal job
  (line 366) and is disabled below `minMoneyToResign` (line 369);
* `startJob`: the contract buttons exist on the `CHOOSE_JOB` screen for each
  catalog index and are disabled unless the job is unlocked and not current
  (lines 530-556);
* `conclude`: the conclude button is rendered only on the terminal job
  (lines 385-392) and moves to `END` without touching the player;
* `reset`: `restartGame` (lines 255-266) is dispatched from the `END` screen
  and reinstalls the fresh player.

Rules that read the current job require it to exist in the catalog
(`JOBS[p.currentJobIndex]? = some job`); with an out-of-bounds index the
JavaScript handler would fault, so no transition is provided. -/
inductive Step (JOBS : List Job) : Config → Op → Config → Prop where
  | startCareer (p : PlayerState) :
      Step JOBS ⟨GameState.START, p⟩ Op.startCareer ⟨GameState.WORKING, p⟩
  | click (p : PlayerState) (job : Job)
      (hjob : JOBS[p.currentJobIndex]? = some job) :
      Step JOBS ⟨GameState.WORKING, p⟩ Op.click
        ⟨GameState.WORKING, handleWorkClick job p⟩
  | tick (p : PlayerState) (job : Job)
      (hjob : JOBS[p.currentJobIndex]? = some job) :
      Step JOBS ⟨GameState.WORKING, p⟩ Op.tick
        ⟨GameState.WORKING, tickApply job p⟩
  | buy (p : PlayerState) (job : Job) (u : Upgrade)
      (hjob : JOBS[p.currentJobIndex]? = some job)
      (hu : u ∈ job.upgrades) :
      Step JOBS ⟨GameState.WORKING, p⟩ (Op.buy u)
        ⟨GameState.WORKING, (buyUpgrade u p).2⟩
  | spin (p : PlayerState) (job : Job) (now : ℤ) (r : Fin 7)
      (hjob : JOBS[p.currentJobIndex]? = some job)
      (hcool : remaining now p.lastSpinTime = 0) :
      Step JOBS ⟨GameState.WORKING, p⟩ (Op.spin now r)
        ⟨GameState.WORKING, handleSpinRoulette job now r p⟩
  | resign (p : PlayerState) (job : Job)
      (hjob : JOBS[p.currentJobIndex]? = some job)
      (hnotlast : p.currentJobIndex ≠ JOBS.length - 1)
      (hcan : job.minMoneyToResign ≤ p.money) :
      Step JOBS ⟨GameState.WORKING, p⟩ Op.resign
        ⟨GameState.CHOOSE_JOB, resign p⟩
  | startJob (p : PlayerState) (i : Nat)
      (hunlocked : i ∈ p.unlockedJobs)
      (hne : i ≠ p.currentJobIndex)
      (hlt : i < JOBS.length) :
      Step JOBS ⟨GameState.CHOOSE_JOB, p⟩ (Op.startJob i)
        ⟨GameState.WORKING, startJob i p⟩
  | conclude (p : PlayerState)
      (hlast : p.currentJobIndex = JOBS.length - 1) :
      Step JOBS ⟨GameState.WORKING, p⟩ Op.conclude ⟨GameState.END, p⟩
  | reset (p : PlayerState) :
      Step JOBS ⟨GameState.END, p⟩ Op.reset ⟨GameState.START, freshPlayer⟩

/-- Configurations reachable from the fresh start (first run: `START` ledger
state and the default-created player). -/
inductive Reachable (JOBS : List Job) : Config → Prop where
  | init : Reachable JOBS ⟨GameState.START, freshPlayer⟩
  | step {c : Config} {op : Op} {c' : Config} :
      Reachable JOBS c → Step JOBS c op c' → Reachable JOBS c'

/-- The data-model conditions on a single catalog upgrade (spec §3): a
non-negative cost and non-negative bonus fields when present. -/
def UpgradeOK (u : Upgrade) : Prop :=
  0 ≤ u.cost ∧ 0 ≤ u.bonusClick.getD 0 ∧ 0 ≤ u.bonusSec.getD 0

instance (u : Upgrade) : Decidable (UpgradeOK u) := by
  unfold UpgradeOK; infer_instance

/-- The data-model conditions on the catalog (spec §3): non-negative base
rates and well-formed upgrades for every job. -/
def CatalogOK (JOBS : List Job) : Prop :=
  ∀ job ∈ JOBS, 0 ≤ job.baseClick ∧ 0 ≤ job.baseSec ∧ ∀ u ∈ job.upgrades, UpgradeOK u

instance (JOBS : List Job) : Decidable (CatalogOK JOBS) := by
  unfold CatalogOK; infer_instance

/-! A concrete demonstration catalog.

`constants.ts` is not among the sources, so a small catalog satisfying the
spec's data-model conditions is used to instantiate witnesses. -/

/-- A demonstration upgrade. -/
def demoUpgrade : Upgrade :=
  { id := "u1", name := "Coffee", cost := 10, bonusClick := some 1, bonusSec := some 1 }

/-- A demonstration entry-level job. -/
def demoJob0 : Job :=
  { id := 0, name := "Intern", icon := "i", baseClick := 1, baseSec := 1
    upgrades := [demoUpgrade], minMoneyToResign := 0 }

/-- A demonstration terminal job. -/
def demoJob1 : Job :=
  { id := 1, name := "Boss", icon := "b", baseClick := 2, baseSec := 2
    upgrades := [], minMoneyToResign := 50 }

/-- A demonstration two-job catalog. -/
def demoJobs : List Job := [demoJob0, demoJob1]

/-! Helper lemmas. -/

/-- Folding `+ f uid` over a list starting from `a` is `a` plus the sum of the
mapped list. -/
lemma foldl_add_eq_sum (f : String → ℚ) :
    ∀ (S : List String) (a : ℚ),
      S.foldl (fun e uid => e + f uid) a = a + (S.map f).sum := by
  intro S
  induction S with
  | nil => intro a; simp
  | cons x t ih =>
      intro a
      simp [List.foldl_cons, ih (a + f x), add_assoc]

lemma calculateClickEarnings_eq_sum (job : Job) (S : List String) :
    calculateClickEarnings job S = job.baseClick + (S.map (clickBonus job)).sum :=
  foldl_add_eq_sum (clickBonus job) S job.baseClick

lemma calculateSecEarnings_eq_sum (job : Job) (S : List String) :
    calculateSecEarnings job S = job.baseSec + (S.map (secBonus job)).sum :=
  foldl_add_eq_sum (secBonus job) S job.baseSec

lemma clickBonus_nonneg (job : Job) (h : ∀ u ∈ job.upgrades, UpgradeOK u)
    (uid : String) : 0 ≤ clickBonus job uid := by
  unfold clickBonus
  cases hf : job.upgrades.find? (fun u => u.id == uid) with
  | none => simp
  | some u =>
      have hu : u ∈ job.upgrades := List.mem_of_find?_eq_some hf
      have hok := (h u hu).2.1
      cases hb : u.bonusClick with
      | none => simp [hb]
      | some b =>
          simp only [hb, Option.getD_some] at hok
          by_cases hz : b = 0 <;> simp [hb, hz, hok]

lemma secBonus_nonneg (job : Job) (h : ∀ u ∈ job.upgrades, UpgradeOK u)
    (uid : String) : 0 ≤ secBonus job uid := by
  unfold secBonus
  cases hf : job.upgrades.find? (fun u => u.id == uid) with
  | none => simp
  | some u =>
      have hu : u ∈ job.upgrades := List.mem_of_find?_eq_some hf
      have hok := (h u hu).2.2
      cases hb : u.bonusSec with
      | none => simp [hb]
      | some b =>
          simp only [hb, Option.getD_some] at hok
          by_cases hz : b = 0 <;> simp [hb, hz, hok]

lemma calculateClickEarnings_nonneg (job : Job)
    (hbase : 0 ≤ job.baseClick) (h : ∀ u ∈ job.upgrades, UpgradeOK u)
    (S : List String) : 0 ≤ calculateClickEarnings job S := by
  rw [calculateClickEarnings_eq_sum]
  have hsum : 0 ≤ (S.map (clickBonus job)).sum := by
    apply List.sum_nonneg
    intro x hx
    rcases List.mem_map.mp hx with ⟨uid, _, rfl⟩
    exact clickBonus_nonneg job h uid
  linarith

lemma calculateSecEarnings_nonneg (job : Job)
    (hbase : 0 ≤ job.baseSec) (h : ∀ u ∈ job.upgrades, UpgradeOK u)
    (S : List String) : 0 ≤ calculateSecEarnings job S := by
  rw [calculateSecEarnings_eq_sum]
  have hsum : 0 ≤ (S.map (secBonus job)).sum := by
    apply List.sum_nonneg
    intro x hx
    rcases List.mem_map.mp hx with ⟨uid, _, rfl⟩
    exact secBonus_nonneg job h uid
  linarith

/-- Membership in the JavaScript-`Set` deduplication is membership in the
original list. -/
lemma mem_jsDedup (l : List Nat) (x : Nat) : x ∈ jsDedup l ↔ x ∈ l := by
  have key : ∀ (t acc : List Nat),
      (x ∈ t.foldl (fun acc y => if y ∈ acc then acc else acc ++ [y]) acc
        ↔ x ∈ acc ∨ x ∈ t) := by
    intro t
    induction t with
    | nil => intro acc; simp
    | cons y t ih =>
        intro acc
        rw [List.foldl_cons, ih]
        by_cases hy : y ∈ acc
        · simp only [if_pos hy, List.mem_cons]
          constructor
          · rintro (h | h)
            · exact Or.inl h
            · exact Or.inr (Or.inr h)
          · rintro (h | h | h)
            · exact Or.inl h
            · exact Or.inl (h ▸ hy)
            · exact Or.inr h
        · simp only [if_neg hy, List.mem_append, List.mem_singleton, List.mem_cons]
          tauto
  unfold jsDedup
  rw [key l []]
  simp

/-! The earnings formula of the specification.

For the refinement claim about the earnings functions, a second pair of
definitions follows the spec's words (§4.1): base rate plus the sum of the
bonus field over the upgrades of the job whose id lies in the purchased set
and whose bonus field is defined. -/

/-- The earnings formula exactly as the spec states it for clicks:
`job.baseClick + sum(u.bonusClick for u in job.upgrades if u.id in S and
u.bonusClick defined)`. -/
def specClickEarnings (job : Job) (S : List String) : ℚ :=
  job.baseClick +
    ((job.upgrades.filter (fun u => decide (u.id ∈ S ∧ u.bonusClick.isSome))).map
      (fun u => u.bonusClick.getD 0)).sum

/-- The earnings formula exactly as the spec states it for passive income. -/
def specSecEarnings (job : Job) (S : List String) : ℚ :=
  job.baseSec +
    ((job.upgrades.filter (fun u => decide (u.id ∈ S ∧ u.bonusSec.isSome))).map
      (fun u => u.bonusSec.getD 0)).sum

/-- Looking up an id in an upgrade list and paying `f` on a hit. -/
def lookupPay (L : List Upgrade) (f : Upgrade → ℚ) (uid : String) : ℚ :=
  match L.find? (fun u => u.id == uid) with
  | some u => f u
  | none => 0

lemma if_eq_zero_self (b : ℚ) : (if b = 0 then 0 else b) = b := by
  by_cases h : b = 0 <;> simp [h]

lemma clickBonus_eq_lookupPay (job : Job) (uid : String) :
    clickBonus job uid = lookupPay job.upgrades (fun u => u.bonusClick.getD 0) uid := by
  unfold clickBonus lookupPay
  cases job.upgrades.find? (fun u => u.id == uid) with
  | none => rfl
  | some u =>
      cases hb : u.bonusClick with
      | none => simp [hb]
      | some b => simp [hb, if_eq_zero_self]

lemma secBonus_eq_lookupPay (job : Job) (uid : String) :
    secBonus job uid = lookupPay job.upgrades (fun u => u.bonusSec.getD 0) uid := by
  unfold secBonus lookupPay
  cases job.upgrades.find? (fun u => u.id == uid) with
  | none => rfl
  | some u =>
      cases hb : u.bonusSec with
      | none => simp [hb]
      | some b => simp [hb, if_eq_zero_self]

/-- When ids are unique, `find?` on an id of a member returns that member. -/
lemma find?_id_of_mem (L : List Upgrade)
    (hnd : (L.map (fun u => u.id)).Nodup) (u : Upgrade) (hu : u ∈ L) :
    L.find? (fun v => v.id == u.id) = some u := by
  induction L with
  | nil => cases hu
  | cons v T ih =>
      have hnd' : (v.id :: T.map (fun w => w.id)).Nodup := hnd
      have hnd2 := List.nodup_cons.mp hnd'
      rcases List.mem_cons.mp hu with rfl | hmem
      · exact List.find?_cons_of_pos _ (by simp)
      · have hne : v.id ≠ u.id := by
          intro he
          exact hnd2.1 (he ▸ List.mem_map_of_mem (fun z => z.id) hmem)
        rw [List.find?_cons_of_neg _ (by simp [hne])]
        exact ih hnd2.2 hmem

/-- Extending the purchased set by a fresh id `u.id` adds exactly `f u` to the
filtered catalog sum. -/
lemma sum_filter_mem_cons (f : Upgrade → ℚ) :
    ∀ (L : List Upgrade) (u : Upgrade) (S : List String),
      (L.map (fun v => v.id)).Nodup → u ∈ L → u.id ∉ S →
      ((L.filter (fun v => decide (v.id ∈ u.id :: S))).map f).sum
        = f u + ((L.filter (fun v => decide (v.id ∈ S))).map f).sum := by
  intro L
  induction L with
  | nil => intro u S _ hu _; cases hu
  | cons v T ih =>
      intro u S hnd hu hS
      have hnd' : (v.id :: T.map (fun w => w.id)).Nodup := hnd
      have hnd2 := List.nodup_cons.mp hnd'
      rcases List.mem_cons.mp hu with rfl | hmem
      · have hfilT : T.filter (fun w => decide (w.id ∈ u.id :: S))
            = T.filter (fun w => decide (w.id ∈ S)) := by
          apply List.filter_congr
          intro w hw
          have hwne : w.id ≠ u.id := fun he =>
            hnd2.1 (he ▸ List.mem_map_of_mem (fun z => z.id) hw)
          simp [List.mem_cons, hwne]
        rw [List.filter_cons, List.filter_cons, hfilT]
        have h1 : decide (u.id ∈ u.id :: S) = true := by simp
        have h2 : decide (u.id ∈ S) = false := by simpa using hS
        rw [h1, h2]
        simp
      · have hvne : v.id ≠ u.id := by
          intro he
          exact hnd2.1 (he ▸ List.mem_map_of_mem (fun z => z.id) hmem)
        have hvdec : decide (v.id ∈ u.id :: S) = decide (v.id ∈ S) := by
          simp [List.mem_cons, hvne]
        rw [List.filter_cons, List.filter_cons, hvdec]
        by_cases hv : v.id ∈ S
        · have h3 : decide (v.id ∈ S) = true := by simpa using hv
          rw [h3]
          simp only [if_pos, List.map_cons, List.sum_cons]
          rw [ih u S hnd2.2 hmem hS]
          ring
        · have h3 : decide (v.id ∈ S) = false := by simpa using hv
          rw [h3]
          simp only [Bool.false_eq_true, if_neg, not_false_iff]
          exact ih u S hnd2.2 hmem hS

/-- Iterating over the purchased ids (as the code does) computes the same
total as the filtered sum over the catalog (as the spec states it), whenever
the purchased ids form a set of catalog ids and ids are unique within the
job. -/
lemma sum_map_lookupPay (L : List Upgrade) (f : Upgrade → ℚ)
    (hnd : (L.map (fun u => u.id)).Nodup) :
    ∀ S : List String, S.Nodup → (∀ uid ∈ S, uid ∈ L.map (fun u => u.id)) →
      (S.map (lookupPay L f)).sum
        = ((L.filter (fun u => decide (u.id ∈ S))).map f).sum := by
  intro S
  induction S with
  | nil =>
      intro _ _
      simp [List.filter_eq_nil_iff]
  | cons uid S ih =>
      intro hndS hsub
      have hndS2 := List.nodup_cons.mp hndS
      rcases List.mem_map.mp (hsub uid (List.mem_cons_self uid S)) with ⟨u, huL, huid⟩
      subst huid
      have hfind : lookupPay L f u.id = f u := by
        unfold lookupPay
        rw [find?_id_of_mem L hnd u huL]
      rw [List.map_cons, List.sum_cons, hfind,
        sum_filter_mem_cons f L u S hnd huL hndS2.1,
        ih hndS2.2 (fun x hx => hsub x (List.mem_cons_of_mem _ hx))]

/-- Any `bonus`-field filter clause `… ∧ (g u).isSome` can be dropped from the
spec's sum: an undefined bonus contributes `getD 0 = 0` anyway. -/
lemma spec_sum_eq (L : List Upgrade) (g : Upgrade → Option ℚ) (S : List String) :
    ((L.filter (fun u => decide (u.id ∈ S ∧ (g u).isSome))).map
        (fun u => (g u).getD 0)).sum
      = ((L.filter (fun u => decide (u.id ∈ S))).map (fun u => (g u).getD 0)).sum := by
  induction L with
  | nil => simp
  | cons v T ih =>
      rw [List.filter_cons, List.filter_cons]
      by_cases hA : v.id ∈ S
      · have h2 : decide (v.id ∈ S) = true := by simpa using hA
        cases hg : g v with
        | some b =>
            have h1 : (decide (v.id ∈ S ∧ (some b : Option ℚ).isSome = true)) = true := by
              simp [hA]
            rw [h1, h2, if_pos rfl, if_pos rfl]
            simp only [List.map_cons, List.sum_cons]
            rw [ih]
        | none =>
            have h1 : (decide (v.id ∈ S ∧ (none : Option ℚ).isSome = true)) = false := by
              simp
            rw [h1, h2, if_neg (by simp), if_pos rfl]
            simp only [List.map_cons, List.sum_cons]
            rw [ih, hg]
            simp
      · have h2 : decide (v.id ∈ S) = false := by simpa using hA
        cases hg : g v with
        | some b =>
            have h1 : (decide (v.id ∈ S ∧ (some b : Option ℚ).isSome = true)) = false := by
              simp [hA]
            rw [h1, h2, if_neg (by simp), if_neg (by simp)]
            exact ih
        | none =>
            have h1 : (decide (v.id ∈ S ∧ (none : Option ℚ).isSome = true)) = false := by
              simp
            rw [h1, h2, if_neg (by simp), if_neg (by simp)]
            exact ih

lemma calculateClickEarnings_eq_spec (job : Job) (S : List String)
    (hndJ : (job.upgrades.map (fun u => u.id)).Nodup)
    (hndS : S.Nodup) (hsubS : ∀ uid ∈ S, uid ∈ job.upgrades.map (fun u => u.id)) :
    calculateClickEarnings job S = specClickEarnings job S := by
  have hfun : clickBonus job = lookupPay job.upgrades (fun u => u.bonusClick.getD 0) :=
    funext (clickBonus_eq_lookupPay job)
  rw [calculateClickEarnings_eq_sum, hfun,
    sum_map_lookupPay job.upgrades _ hndJ S hndS hsubS]
  unfold specClickEarnings
  rw [spec_sum_eq job.upgrades (fun u => u.bonusClick) S]

lemma calculateSecEarnings_eq_spec (job : Job) (S : List String)
    (hndJ : (job.upgrades.map (fun u => u.id)).Nodup)
    (hndS : S.Nodup) (hsubS : ∀ uid ∈ S, uid ∈ job.upgrades.map (fun u => u.id)) :
    calculateSecEarnings job S = specSecEarnings job S := by
  have hfun : secBonus job = lookupPay job.upgrades (fun u => u.bonusSec.getD 0) :=
    funext (secBonus_eq_lookupPay job)
  rw [calculateSecEarnings_eq_sum, hfun,
    sum_map_lookupPay job.upgrades _ hndJ S hndS hsubS]
  unfold specSecEarnings
  rw [spec_sum_eq job.upgrades (fun u => u.bonusSec) S]

lemma calculateClickEarnings_mono (job : Job)
    (hok : ∀ u ∈ job.upgrades, UpgradeOK u) (S Sbig : List String)
    (hndS : S.Nodup) (hSS : S ⊆ Sbig) :
    calculateClickEarnings job S ≤ calculateClickEarnings job Sbig := by
  rw [calculateClickEarnings_eq_sum, calculateClickEarnings_eq_sum]
  rcases List.subperm_of_subset hndS hSS with ⟨l, hperm, hsub⟩
  have h1 : (S.map (clickBonus job)).sum = (l.map (clickBonus job)).sum :=
    ((hperm.map (clickBonus job)).sum_eq).symm
  have h2 : (l.map (clickBonus job)).sum ≤ (Sbig.map (clickBonus job)).sum := by
    apply List.Sublist.sum_le_sum (hsub.map (clickBonus job))
    intro x hx
    rcases List.mem_map.mp hx with ⟨uid, _, rfl⟩
    exact clickBonus_nonneg job hok uid
  linarith

lemma calculateSecEarnings_mono (job : Job)
    (hok : ∀ u ∈ job.upgrades, UpgradeOK u) (S Sbig : List String)
    (hndS : S.Nodup) (hSS : S ⊆ Sbig) :
    calculateSecEarnings job S ≤ calculateSecEarnings job Sbig := by
  rw [calculateSecEarnings_eq_sum, calculateSecEarnings_eq_sum]
  rcases List.subperm_of_subset hndS hSS with ⟨l, hperm, hsub⟩
  have h1 : (S.map (secBonus job)).sum = (l.map (secBonus job)).sum :=
    ((hperm.map (secBonus job)).sum_eq).symm
  have h2 : (l.map (secBonus job)).sum ≤ (Sbig.map (secBonus job)).sum := by
    apply List.Sublist.sum_le_sum (hsub.map (secBonus job))
    intro x hx
    rcases List.mem_map.mp hx with ⟨uid, _, rfl⟩
    exact secBonus_nonneg job hok uid
  linarith

/-! Claim theorems. -/

/-- Claim C5: for every job `J` and every subset `S` of the ids of `J.upgrades`
(a duplicate-free list of catalog ids), `clickEarnings(J, S)` equals
`J.baseClick` plus the sum of `bonusClick` over the upgrades of `J` whose id
is in `S` and whose `bonusClick` is defined, and it is monotonically
non-decreasing as `S` grows; `perSecondEarnings` satisfies the identical
formula with `baseSec`/`bonusSec`.  Both are pure functions, so determinism
is inherent in the embedding. -/
theorem claim_C5_earnings_formula (job : Job) (S Sbig : List String)
    (hndJ : (job.upgrades.map (fun u => u.id)).Nodup)
    (hok : ∀ u ∈ job.upgrades, UpgradeOK u)
    (hndS : S.Nodup)
    (hsubS : ∀ uid ∈ S, uid ∈ job.upgrades.map (fun u => u.id))
    (hndB : Sbig.Nodup)
    (hsubB : ∀ uid ∈ Sbig, uid ∈ job.upgrades.map (fun u => u.id))
    (hSS : S ⊆ Sbig) :
    calculateClickEarnings job S = specClickEarnings job S
    ∧ calculateSecEarnings job S = specSecEarnings job S
    ∧ calculateClickEarnings job S ≤ calculateClickEarnings job Sbig
    ∧ calculateSecEarnings job S ≤ calculateSecEarnings job Sbig :=
  ⟨calculateClickEarnings_eq_spec job S hndJ hndS hsubS,
   calculateSecEarnings_eq_spec job S hndJ hndS hsubS,
   calculateClickEarnings_mono job hok S Sbig hndS hSS,
   calculateSecEarnings_mono job hok S Sbig hndS hSS⟩

/-- Witness for C5 at the demonstration job with `S = Sbig = ["u1"]`. -/
theorem claim_C5_earnings_formula_witness :
    calculateClickEarnings demoJob0 ["u1"] = specClickEarnings demoJob0 ["u1"]
    ∧ calculateSecEarnings demoJob0 ["u1"] = specSecEarnings demoJob0 ["u1"]
    ∧ calculateClickEarnings demoJob0 ["u1"] ≤ calculateClickEarnings demoJob0 ["u1"]
    ∧ calculateSecEarnings demoJob0 ["u1"] ≤ calculateSecEarnings demoJob0 ["u1"] :=
  claim_C5_earnings_formula demoJob0 ["u1"] ["u1"] (by decide) (by decide)
    (by decide) (by decide) (by decide) (by decide) (List.Subset.refl _)

/-- Claim C9: the passive income ticker credits earnings only while the ledger
state is `WORKING`: in every state whose ledger state is `START`,
`CHOOSE_JOB` or `END`, a timer tick leaves the player state — in particular
`money` and `totalMoneyEarned` — unchanged, and no `tick` transition exists
in the step relation. -/
theorem claim_C9_tick_only_while_working (JOBS : List Job) (gs : GameState)
    (p : PlayerState)
    (h : gs = GameState.START ∨ gs = GameState.CHOOSE_JOB ∨ gs = GameState.END) :
    passiveTick JOBS gs p = p
    ∧ (passiveTick JOBS gs p).money = p.money
    ∧ (passiveTick JOBS gs p).totalMoneyEarned = p.totalMoneyEarned
    ∧ ∀ c' : Config, ¬ Step JOBS ⟨gs, p⟩ Op.tick c' := by
  have hne : gs ≠ GameState.WORKING := by
    rcases h with rfl | rfl | rfl <;> simp
  have heq : passiveTick JOBS gs p = p := by
    unfold passiveTick
    rw [if_neg hne]
  refine ⟨heq, by rw [heq], by rw [heq], ?_⟩
  intro c' hs
  cases hs
  exact hne rfl

/-- Witness for C9 in the `CHOOSE_JOB` ledger state. -/
theorem claim_C9_tick_only_while_working_witness :
    passiveTick demoJobs GameState.CHOOSE_JOB freshPlayer = freshPlayer
    ∧ (passiveTick demoJobs GameState.CHOOSE_JOB freshPlayer).money = freshPlayer.money
    ∧ (passiveTick demoJobs GameState.CHOOSE_JOB freshPlayer).totalMoneyEarned
        = freshPlayer.totalMoneyEarned
    ∧ ∀ c' : Config,
        ¬ Step demoJobs ⟨GameState.CHOOSE_JOB, freshPlayer⟩ Op.tick c' :=
  claim_C9_tick_only_while_working demoJobs GameState.CHOOSE_JOB freshPlayer
    (Or.inr (Or.inl rfl))

/-- Claim C4: whenever `money < Job[currentJobIndex].minMoneyToResign` (i.e.
`canResign` is false) or `currentJobIndex` is the terminal catalog index, a
resign attempt is a normal rejection: the ledger state and the whole
`PlayerState` are returned unchanged (the embedding is a total function, so
no fault is thrown). -/
theorem claim_C4_resign_rejection (JOBS : List Job) (gs : GameState)
    (p : PlayerState) (job : Job)
    (hjob : JOBS[p.currentJobIndex]? = some job)
    (h : p.money < job.minMoneyToResign ∨ p.currentJobIndex = JOBS.length - 1) :
    resignIntent JOBS gs p = (gs, p) := by
  unfold resignIntent
  simp only [hjob]
  rcases h with hmoney | hlast
  · by_cases hterm : p.currentJobIndex = JOBS.length - 1
    · rw [if_pos hterm]
    · rw [if_neg hterm, if_neg (not_le.mpr hmoney)]
  · rw [if_pos hlast]

/-- Witness for C4 on the terminal demonstration job. -/
theorem claim_C4_resign_rejection_witness :
    resignIntent demoJobs GameState.WORKING
        { freshPlayer with currentJobIndex := 1 }
      = (GameState.WORKING, { freshPlayer with currentJobIndex := 1 }) :=
  claim_C4_resign_rejection demoJobs GameState.WORKING
    { freshPlayer with currentJobIndex := 1 } demoJob1 rfl (Or.inr rfl)

/-- Claim C10: a successful `resign()` modifies only `purchasedUpgrades`
(cleared), `unlockedJobs` (`currentJobIndex + 1` added) and the ledger state
(to `CHOOSE_JOB`); `money`, `totalMoneyEarned`, `currentJobIndex` and
`lastSpinTime` are all left unchanged. -/
theorem claim_C10_resign_frame (JOBS : List Job) (gs : GameState)
    (p : PlayerState) (job : Job)
    (hjob : JOBS[p.currentJobIndex]? = some job)
    (hnl : p.currentJobIndex ≠ JOBS.length - 1)
    (hm : job.minMoneyToResign ≤ p.money) :
    resignIntent JOBS gs p = (GameState.CHOOSE_JOB, resign p)
    ∧ (resign p).money = p.money
    ∧ (resign p).totalMoneyEarned = p.totalMoneyEarned
    ∧ (resign p).currentJobIndex = p.currentJobIndex
    ∧ (resign p).lastSpinTime = p.lastSpinTime
    ∧ (resign p).purchasedUpgrades = []
    ∧ ∀ j : Nat,
        j ∈ (resign p).unlockedJobs ↔ j ∈ p.unlockedJobs ∨ j = p.currentJobIndex + 1 := by
  refine ⟨?_, rfl, rfl, rfl, rfl, rfl, ?_⟩
  · unfold resignIntent
    simp only [hjob]
    rw [if_neg hnl, if_pos hm]
  · intro j
    show j ∈ jsDedup (p.unlockedJobs ++ [p.currentJobIndex + 1]) ↔ _
    rw [mem_jsDedup]
    simp [List.mem_append]

/-- Witness for C10: resigning from the fresh state on the demonstration
catalog. -/
theorem claim_C10_resign_frame_witness :
    resignIntent demoJobs GameState.WORKING freshPlayer
        = (GameState.CHOOSE_JOB, resign freshPlayer)
    ∧ (resign freshPlayer).money = freshPlayer.money
    ∧ (resign freshPlayer).totalMoneyEarned = freshPlayer.totalMoneyEarned
    ∧ (resign freshPlayer).currentJobIndex = freshPlayer.currentJobIndex
    ∧ (resign freshPlayer).lastSpinTime = freshPlayer.lastSpinTime
    ∧ (resign freshPlayer).purchasedUpgrades = []
    ∧ ∀ j : Nat,
        j ∈ (resign freshPlayer).unlockedJobs
          ↔ j ∈ freshPlayer.unlockedJobs ∨ j = freshPlayer.currentJobIndex + 1 :=
  claim_C10_resign_frame demoJobs GameState.WORKING freshPlayer demoJob0 rfl
    (by decide) (by norm_num [demoJob0, freshPlayer])

/-- Claim C8: the loader never faults.  When the persisted blob is absent or
malformed it yields the default fresh `PlayerState` (`money 0`,
`totalMoneyEarned 0`, `currentJobIndex 0`, empty `purchasedUpgrades`,
`unlockedJobs = [0]`, `lastSpinTime 0`), and a well-formed blob that merely
lacks the `lastSpinTime` field loads with `lastSpinTime` defaulted to `0`
and every other field taken from the blob. -/
theorem claim_C8_load_robust (b : SaveBlob) (hb : b.lastSpinTime = none) :
    loadPlayer none = freshPlayer
    ∧ loadPlayer (some none) = freshPlayer
    ∧ freshPlayer = { money := 0, totalMoneyEarned := 0, currentJobIndex := 0,
                      purchasedUpgrades := [], unlockedJobs := [0], lastSpinTime := 0 }
    ∧ (loadPlayer (some (some b))).lastSpinTime = 0
    ∧ (loadPlayer (some (some b))).money = b.money
    ∧ (loadPlayer (some (some b))).totalMoneyEarned = b.totalMoneyEarned
    ∧ (loadPlayer (some (some b))).currentJobIndex = b.currentJobIndex
    ∧ (loadPlayer (some (some b))).purchasedUpgrades = b.purchasedUpgrades
    ∧ (loadPlayer (some (some b))).unlockedJobs = b.unlockedJobs := by
  refine ⟨rfl, rfl, rfl, ?_, rfl, rfl, rfl, rfl, rfl⟩
  simp [loadPlayer, hb]

/-- Witness for C8 at a concrete blob without a `lastSpinTime` field. -/
theorem claim_C8_load_robust_witness :
    loadPlayer none = freshPlayer
    ∧ loadPlayer (some none) = freshPlayer
    ∧ freshPlayer = { money := 0, totalMoneyEarned := 0, currentJobIndex := 0,
                      purchasedUpgrades := [], unlockedJobs := [0], lastSpinTime := 0 }
    ∧ (loadPlayer (some (some
        ⟨42, 99, 1, ["u1"], [0, 1], none⟩))).lastSpinTime = 0
    ∧ (loadPlayer (some (some
        ⟨42, 99, 1, ["u1"], [0, 1], none⟩))).money = (42 : ℚ)
    ∧ (loadPlayer (some (some
        ⟨42, 99, 1, ["u1"], [0, 1], none⟩))).totalMoneyEarned = (99 : ℚ)
    ∧ (loadPlayer (some (some
        ⟨42, 99, 1, ["u1"], [0, 1], none⟩))).currentJobIndex = 1
    ∧ (loadPlayer (some (some
        ⟨42, 99, 1, ["u1"], [0, 1], none⟩))).purchasedUpgrades = ["u1"]
    ∧ (loadPlayer (some (some
        ⟨42, 99, 1, ["u1"], [0, 1], none⟩))).unlockedJobs = [0, 1] :=
  claim_C8_load_robust ⟨42, 99, 1, ["u1"], [0, 1], none⟩ rfl

/-- With unique ids, any member with the looked-up id is the `find?` result. -/
lemma find?_eq_of_mem_id (job : Job)
    (hndJ : (job.upgrades.map (fun u => u.id)).Nodup)
    (uid : String) (u : Upgrade) (hu : u ∈ job.upgrades) (hid : u.id = uid) :
    job.upgrades.find? (fun v => v.id == uid) = some u := by
  have h := find?_id_of_mem job.upgrades hndJ u hu
  simpa [hid] using h

/-- Claim C3: `buyUpgrade(uid)` (the intent dispatched from the upgrade list)
succeeds if and only if the upgrade exists in the catalog of the current job, its
id is not already in `purchasedUpgrades`, and `money ≥ cost`; on success
`money` decreases by exactly `cost` and the id is appended to
`purchasedUpgrades` with every other field untouched; on any failure
(insufficient funds, already owned, or invalid id) the `PlayerState` is
completely unchanged and the rejection branch is signalled; hence a second
call with the same id is rejected and deducts nothing further. -/
theorem claim_C3_buyUpgrade_iff (job : Job) (uid : String) (p : PlayerState)
    (hndJ : (job.upgrades.map (fun u => u.id)).Nodup) :
    ((buyUpgradeIntent job uid p).1 = true ↔
      ∃ u ∈ job.upgrades, u.id = uid ∧ uid ∉ p.purchasedUpgrades ∧ u.cost ≤ p.money)
    ∧ (∀ u ∈ job.upgrades, u.id = uid → (buyUpgradeIntent job uid p).1 = true →
        (buyUpgradeIntent job uid p).2.money = p.money - u.cost
        ∧ (buyUpgradeIntent job uid p).2.purchasedUpgrades = p.purchasedUpgrades ++ [uid]
        ∧ (buyUpgradeIntent job uid p).2.totalMoneyEarned = p.totalMoneyEarned
        ∧ (buyUpgradeIntent job uid p).2.currentJobIndex = p.currentJobIndex
        ∧ (buyUpgradeIntent job uid p).2.unlockedJobs = p.unlockedJobs
        ∧ (buyUpgradeIntent job uid p).2.lastSpinTime = p.lastSpinTime)
    ∧ ((buyUpgradeIntent job uid p).1 = false → (buyUpgradeIntent job uid p).2 = p)
    ∧ ((buyUpgradeIntent job uid p).1 = true →
        (buyUpgradeIntent job uid ((buyUpgradeIntent job uid p).2)).1 = false
        ∧ (buyUpgradeIntent job uid ((buyUpgradeIntent job uid p).2)).2
            = (buyUpgradeIntent job uid p).2) := by
  cases hf : job.upgrades.find? (fun v => v.id == uid) with
  | none =>
      have hres : buyUpgradeIntent job uid p = (false, p) := by
        unfold buyUpgradeIntent
        rw [hf]
      have hnone : ∀ u ∈ job.upgrades, u.id ≠ uid := by
        intro u hu hid
        rcases List.find?_eq_none.mp hf u hu with h
        exact h (by simpa using hid)
      refine ⟨?_, ?_, ?_, ?_⟩
      · rw [hres]
        simp only [Bool.false_eq_true, false_iff]
        rintro ⟨u, hu, hid, -, -⟩
        exact hnone u hu hid
      · intro u hu hid
        exact absurd hid (hnone u hu)
      · intro _
        rw [hres]
      · intro htrue
        rw [hres] at htrue
        cases htrue
  | some u =>
      have hu : u ∈ job.upgrades := List.mem_of_find?_eq_some hf
      have hid : u.id = uid := by
        have := List.find?_some hf
        simpa using this
      have hres : buyUpgradeIntent job uid p = buyUpgrade u p := by
        unfold buyUpgradeIntent
        rw [hf]
      by_cases hcond : u.cost ≤ p.money ∧ u.id ∉ p.purchasedUpgrades
      · have hbuy : buyUpgrade u p =
            (true,
              { p with
                money := p.money - u.cost
                purchasedUpgrades := p.purchasedUpgrades ++ [u.id] }) := by
          unfold buyUpgrade
          rw [if_pos hcond]
        refine ⟨?_, ?_, ?_, ?_⟩
        · rw [hres, hbuy]
          simp only [true_iff]
          exact ⟨u, hu, hid, hid ▸ hcond.2, hcond.1⟩
        · intro u2 hu2 hid2 _
          have hu2eq : u2 = u := by
            have h2 := find?_eq_of_mem_id job hndJ uid u2 hu2 hid2
            have := h2.symm.trans hf
            exact Option.some.inj this
          subst hu2eq
          rw [hres, hbuy, hid]
          exact ⟨rfl, rfl, rfl, rfl, rfl, rfl⟩
        · intro hfalse
          rw [hres, hbuy] at hfalse
          cases hfalse
        · intro _
          set q := (buyUpgradeIntent job uid p).2 with hq
          have hmem : u.id ∈ q.purchasedUpgrades := by
            rw [hq, hres, hbuy]
            simp
          have hres2 : buyUpgradeIntent job uid q = (false, q) := by
            unfold buyUpgradeIntent
            simp only [hf]
            unfold buyUpgrade
            rw [if_neg (by
              rintro ⟨-, habs⟩
              exact habs hmem)]
          rw [hres2]
          exact ⟨rfl, rfl⟩
      · have hbuy : buyUpgrade u p = (false, p) := by
          unfold buyUpgrade
          rw [if_neg hcond]
        refine ⟨?_, ?_, ?_, ?_⟩
        · rw [hres, hbuy]
          simp only [Bool.false_eq_true, false_iff]
          rintro ⟨u2, hu2, hid2, hnotown, hcost⟩
          have hu2eq : u2 = u := by
            have h2 := find?_eq_of_mem_id job hndJ uid u2 hu2 hid2
            exact Option.some.inj (h2.symm.trans hf)
          subst hu2eq
          exact hcond ⟨hcost, hid ▸ hnotown⟩
        · intro u2 hu2 hid2 htrue
          rw [hres, hbuy] at htrue
          cases htrue
        · intro _
          rw [hres, hbuy]
        · intro htrue
          rw [hres, hbuy] at htrue
          cases htrue

/-- Witness for C3: buying the demonstration upgrade with exactly enough
money. -/
theorem claim_C3_buyUpgrade_iff_witness :
    ((buyUpgradeIntent demoJob0 "u1" { freshPlayer with money := 10 }).1 = true ↔
      ∃ u ∈ demoJob0.upgrades, u.id = "u1"
        ∧ "u1" ∉ ({ freshPlayer with money := 10 } : PlayerState).purchasedUpgrades
        ∧ u.cost ≤ ({ freshPlayer with money := 10 } : PlayerState).money)
    ∧ (∀ u ∈ demoJob0.upgrades, u.id = "u1" →
        (buyUpgradeIntent demoJob0 "u1" { freshPlayer with money := 10 }).1 = true →
        (buyUpgradeIntent demoJob0 "u1" { freshPlayer with money := 10 }).2.money
            = ({ freshPlayer with money := 10 } : PlayerState).money - u.cost
        ∧ (buyUpgradeIntent demoJob0 "u1" { freshPlayer with money := 10 }).2.purchasedUpgrades
            = ({ freshPlayer with money := 10 } : PlayerState).purchasedUpgrades ++ ["u1"]
        ∧ (buyUpgradeIntent demoJob0 "u1" { freshPlayer with money := 10 }).2.totalMoneyEarned
            = ({ freshPlayer with money := 10 } : PlayerState).totalMoneyEarned
        ∧ (buyUpgradeIntent demoJob0 "u1" { freshPlayer with money := 10 }).2.currentJobIndex
            = ({ freshPlayer with money := 10 } : PlayerState).currentJobIndex
        ∧ (buyUpgradeIntent demoJob0 "u1" { freshPlayer with money := 10 }).2.unlockedJobs
            = ({ freshPlayer with money := 10 } : PlayerState).unlockedJobs
        ∧ (buyUpgradeIntent demoJob0 "u1" { freshPlayer with money := 10 }).2.lastSpinTime
            = ({ freshPlayer with money := 10 } : PlayerState).lastSpinTime)
    ∧ ((buyUpgradeIntent demoJob0 "u1" { freshPlayer with money := 10 }).1 = false →
        (buyUpgradeIntent demoJob0 "u1" { freshPlayer with money := 10 }).2
          = { freshPlayer with money := 10 })
    ∧ ((buyUpgradeIntent demoJob0 "u1" { freshPlayer with money := 10 }).1 = true →
        (buyUpgradeIntent demoJob0 "u1"
            ((buyUpgradeIntent demoJob0 "u1" { freshPlayer with money := 10 }).2)).1 = false
        ∧ (buyUpgradeIntent demoJob0 "u1"
            ((buyUpgradeIntent demoJob0 "u1" { freshPlayer with money := 10 }).2)).2
          = (buyUpgradeIntent demoJob0 "u1" { freshPlayer with money := 10 }).2) :=
  claim_C3_buyUpgrade_iff demoJob0 "u1" { freshPlayer with money := 10 } (by decide)

/-- Every multiplier on the wheel is non-negative. -/
lemma rewards_nonneg : ∀ m ∈ rewards, 0 ≤ m := by
  intro m hm
  simp only [rewards, List.mem_cons, List.not_mem_nil, or_false] at hm
  rcases hm with rfl | rfl | rfl | rfl | rfl | rfl | rfl <;> norm_num

/-- Claim C6: every successful bonus claim at time `now` computes
`potential = clickEarnings * 20 + perSecondEarnings * 100`, draws one
multiplier `m` from the fixed list `[0.1, 0.2, 0.5, 1, 2, 5, 10]`, and
credits `potential * m` to both `money` and `totalMoneyEarned` while setting
`lastSpinTime = now`; in particular with `clickEarnings = 1`,
`perSecondEarnings = 1` and multiplier `1` the credited amount is exactly
`120`. -/
theorem claim_C6_spin_reward (JOBS : List Job) (c c' : Config) (now : ℤ)
    (r : Fin 7) (hs : Step JOBS c (Op.spin now r) c') :
    ∃ job m, JOBS[c.player.currentJobIndex]? = some job
    ∧ m ∈ rewards
    ∧ c'.player.money = c.player.money
        + (calculateClickEarnings job c.player.purchasedUpgrades * 20
            + calculateSecEarnings job c.player.purchasedUpgrades * 100) * m
    ∧ c'.player.totalMoneyEarned = c.player.totalMoneyEarned
        + (calculateClickEarnings job c.player.purchasedUpgrades * 20
            + calculateSecEarnings job c.player.purchasedUpgrades * 100) * m
    ∧ c'.player.lastSpinTime = now
    ∧ (calculateClickEarnings job c.player.purchasedUpgrades = 1 →
        calculateSecEarnings job c.player.purchasedUpgrades = 1 → m = 1 →
        c'.player.money = c.player.money + 120) := by
  cases hs with
  | spin p job now r hjob hcool =>
      refine ⟨job, rewards.get ⟨r.val, r.isLt⟩, hjob,
        List.get_mem rewards r.val r.isLt, rfl, rfl, rfl, ?_⟩
      intro h1 h2 h3
      have hmoney : (handleSpinRoulette job now r p).money
          = p.money + (calculateClickEarnings job p.purchasedUpgrades * 20
              + calculateSecEarnings job p.purchasedUpgrades * 100)
            * rewards.get ⟨r.val, r.isLt⟩ := rfl
      rw [hmoney, h1, h2, h3]
      norm_num

/-- Witness for C6: a concrete claim on the demonstration catalog at
`now = 600000` with the multiplier-`1` slot, crediting exactly `120`. -/
theorem claim_C6_spin_reward_witness :
    ∃ job m, demoJobs[freshPlayer.currentJobIndex]? = some job
    ∧ m ∈ rewards
    ∧ (handleSpinRoulette demoJob0 600000 3 freshPlayer).money = freshPlayer.money
        + (calculateClickEarnings job freshPlayer.purchasedUpgrades * 20
            + calculateSecEarnings job freshPlayer.purchasedUpgrades * 100) * m
    ∧ (handleSpinRoulette demoJob0 600000 3 freshPlayer).totalMoneyEarned
        = freshPlayer.totalMoneyEarned
        + (calculateClickEarnings job freshPlayer.purchasedUpgrades * 20
            + calculateSecEarnings job freshPlayer.purchasedUpgrades * 100) * m
    ∧ (handleSpinRoulette demoJob0 600000 3 freshPlayer).lastSpinTime = 600000
    ∧ (calculateClickEarnings job freshPlayer.purchasedUpgrades = 1 →
        calculateSecEarnings job freshPlayer.purchasedUpgrades = 1 → m = 1 →
        (handleSpinRoulette demoJob0 600000 3 freshPlayer).money
          = freshPlayer.money + 120) :=
  claim_C6_spin_reward demoJobs ⟨GameState.WORKING, freshPlayer⟩
    ⟨GameState.WORKING, handleSpinRoulette demoJob0 600000 3 freshPlayer⟩
    600000 3
    (Step.spin freshPlayer demoJob0 600000 3 rfl (by decide))

/-- Claim C7 (amended): the `useState` initializer applies no bounds check:
the `currentJobIndex` of a parsed blob is kept exactly as persisted, and when it is
out of bounds the subsequent `JOBS[currentJobIndex]` lookup yields no job
(in JavaScript, `undefined`, faulting on first field access) instead of
being clamped or reset to `0`. -/
theorem claim_C7_load_keeps_out_of_bounds_index (b : SaveBlob)
    (JOBS : List Job) (hout : JOBS.length ≤ b.currentJobIndex) :
    (loadPlayer (some (some b))).currentJobIndex = b.currentJobIndex
    ∧ JOBS[(loadPlayer (some (some b))).currentJobIndex]? = none :=
  ⟨rfl, List.getElem?_eq_none hout⟩

/-- Witness for C7 (amended) at an out-of-bounds concrete blob. -/
theorem claim_C7_load_keeps_out_of_bounds_index_witness :
    (loadPlayer (some (some ⟨5, 5, 7, [], [0], some 3⟩))).currentJobIndex = 7
    ∧ demoJobs[(loadPlayer (some (some ⟨5, 5, 7, [], [0], some 3⟩))).currentJobIndex]?
        = none :=
  claim_C7_load_keeps_out_of_bounds_index ⟨5, 5, 7, [], [0], some 3⟩ demoJobs
    (by decide)

/-- Claim C7 counterexample: loading a parsed blob whose `currentJobIndex` is
`7` — out of bounds for the two-job demonstration catalog — neither clamps
nor resets it to index `0`: the index stays `7` and the current-job lookup
finds no job, contradicting the claimed clamp-or-reset recovery. -/
theorem claim_C7_no_clamp_counterexample :
    demoJobs.length
        ≤ (loadPlayer (some (some ⟨0, 0, 7, [], [0], some 0⟩))).currentJobIndex
    ∧ (loadPlayer (some (some ⟨0, 0, 7, [], [0], some 0⟩))).currentJobIndex ≠ 0
    ∧ demoJobs[(loadPlayer (some (some ⟨0, 0, 7, [], [0], some 0⟩))).currentJobIndex]?
        = none :=
  ⟨by decide, by decide, rfl⟩

lemma catalogOK_of_getElem (JOBS : List Job) (hJ : CatalogOK JOBS)
    (i : Nat) (job : Job) (hjob : JOBS[i]? = some job) :
    0 ≤ job.baseClick ∧ 0 ≤ job.baseSec ∧ ∀ u ∈ job.upgrades, UpgradeOK u :=
  hJ job (List.getElem?_mem hjob)

/-- Every step of the engine keeps `money` non-negative. -/
lemma step_money_nonneg (JOBS : List Job) (hJ : CatalogOK JOBS)
    {c : Config} {op : Op} {c' : Config} (hs : Step JOBS c op c')
    (hm : 0 ≤ c.player.money) : 0 ≤ c'.player.money := by
  cases hs with
  | startCareer p => exact hm
  | click p job hjob =>
      rcases catalogOK_of_getElem JOBS hJ _ job hjob with ⟨hb, -, hu⟩
      exact add_nonneg hm (calculateClickEarnings_nonneg job hb hu _)
  | tick p job hjob =>
      rcases catalogOK_of_getElem JOBS hJ _ job hjob with ⟨-, hb, hu⟩
      unfold tickApply
      by_cases hpos : 0 < calculateSecEarnings job p.purchasedUpgrades
      · rw [if_pos hpos]
        exact add_nonneg hm (le_of_lt hpos)
      · rw [if_neg hpos]
        exact hm
  | buy p job u hjob hu =>
      unfold buyUpgrade
      by_cases hcond : u.cost ≤ p.money ∧ u.id ∉ p.purchasedUpgrades
      · rw [if_pos hcond]
        simpa using sub_nonneg.mpr hcond.1
      · rw [if_neg hcond]
        exact hm
  | spin p job now r hjob hcool =>
      rcases catalogOK_of_getElem JOBS hJ _ job hjob with ⟨hbc, hbs, hu⟩
      have hpot : 0 ≤ calculateClickEarnings job p.purchasedUpgrades * 20
          + calculateSecEarnings job p.purchasedUpgrades * 100 := by
        have h1 := calculateClickEarnings_nonneg job hbc hu p.purchasedUpgrades
        have h2 := calculateSecEarnings_nonneg job hbs hu p.purchasedUpgrades
        linarith
      have hmul : (0 : ℚ) ≤ rewards.get ⟨r.val, r.isLt⟩ :=
        rewards_nonneg _ (List.get_mem rewards r.val r.isLt)
      exact add_nonneg hm (mul_nonneg hpot hmul)
  | resign p job hjob hnotlast hcan => exact hm
  | startJob p i hunlocked hne hlt => exact hm
  | conclude p hlast => exact hm
  | reset p => exact le_refl 0

/-- Every step other than `reset` never decreases `totalMoneyEarned`
(`reset` reinitializes the whole player state, `totalMoneyEarned`
included). -/
lemma step_total_mono (JOBS : List Job) (hJ : CatalogOK JOBS)
    {c : Config} {op : Op} {c' : Config} (hs : Step JOBS c op c')
    (hop : op ≠ Op.reset) :
    c.player.totalMoneyEarned ≤ c'.player.totalMoneyEarned := by
  cases hs with
  | startCareer p => exact le_refl _
  | click p job hjob =>
      rcases catalogOK_of_getElem JOBS hJ _ job hjob with ⟨hb, -, hu⟩
      exact le_add_of_nonneg_right (calculateClickEarnings_nonneg job hb hu _)
  | tick p job hjob =>
      unfold tickApply
      by_cases hpos : 0 < calculateSecEarnings job p.purchasedUpgrades
      · rw [if_pos hpos]
        exact le_add_of_nonneg_right (le_of_lt hpos)
      · rw [if_neg hpos]
  | buy p job u hjob hu =>
      unfold buyUpgrade
      by_cases hcond : u.cost ≤ p.money ∧ u.id ∉ p.purchasedUpgrades
      · rw [if_pos hcond]
      · rw [if_neg hcond]
  | spin p job now r hjob hcool =>
      rcases catalogOK_of_getElem JOBS hJ _ job hjob with ⟨hbc, hbs, hu⟩
      have hpot : 0 ≤ calculateClickEarnings job p.purchasedUpgrades * 20
          + calculateSecEarnings job p.purchasedUpgrades * 100 := by
        have h1 := calculateClickEarnings_nonneg job hbc hu p.purchasedUpgrades
        have h2 := calculateSecEarnings_nonneg job hbs hu p.purchasedUpgrades
        linarith
      have hmul : (0 : ℚ) ≤ rewards.get ⟨r.val, r.isLt⟩ :=
        rewards_nonneg _ (List.get_mem rewards r.val r.isLt)
      exact le_add_of_nonneg_right (mul_nonneg hpot hmul)
  | resign p job hjob hnotlast hcan => exact le_refl _
  | startJob p i hunlocked hne hlt => exact le_refl _
  | conclude p hlast => exact le_refl _
  | reset p => exact absurd rfl hop

/-- Claim C2 (amended): under every sequence of engine operations starting
from the fresh `PlayerState`, `money` never becomes negative, and
`totalMoneyEarned` is non-decreasing across every operation except
`reset()` — which reinitializes the whole `PlayerState`, `totalMoneyEarned`
included, back to `0`.  In particular spending via `buyUpgrade` never
decrements `totalMoneyEarned`.  Catalog costs and earning rates are assumed
non-negative as the data model requires. -/
theorem claim_C2_money_nonneg_total_mono (JOBS : List Job)
    (hJ : CatalogOK JOBS) (c : Config) (hr : Reachable JOBS c) :
    0 ≤ c.player.money
    ∧ ∀ (op : Op) (c' : Config), Step JOBS c op c' → op ≠ Op.reset →
        c.player.totalMoneyEarned ≤ c'.player.totalMoneyEarned := by
  refine ⟨?_, fun op c' hs hop => step_total_mono JOBS hJ hs hop⟩
  induction hr with
  | init => exact le_refl 0
  | step hr hs ih => exact step_money_nonneg JOBS hJ hs ih

/-- Witness for C2 (amended) at the initial configuration of the
demonstration catalog. -/
theorem claim_C2_money_nonneg_total_mono_witness :
    0 ≤ (Config.mk GameState.START freshPlayer).player.money
    ∧ ∀ (op : Op) (c' : Config),
        Step demoJobs (Config.mk GameState.START freshPlayer) op c' →
        op ≠ Op.reset →
        (Config.mk GameState.START freshPlayer).player.totalMoneyEarned
          ≤ c'.player.totalMoneyEarned :=
  claim_C2_money_nonneg_total_mono demoJobs (by decide) _ Reachable.init

/-- Claim C2 counterexample: the claim as stated also quantifies over
`reset()`, but `restartGame` sets `totalMoneyEarned` back to `0`.  From the
fresh state on a well-formed catalog one can work (earning `1`), resign,
sign the terminal contract, conclude, and reset: the reset step strictly
decreases `totalMoneyEarned` from `1` to `0`. -/
theorem claim_C2_reset_counterexample :
    CatalogOK demoJobs
    ∧ Reachable demoJobs
        ⟨GameState.END, startJob 1 (resign (handleWorkClick demoJob0 freshPlayer))⟩
    ∧ Step demoJobs
        ⟨GameState.END, startJob 1 (resign (handleWorkClick demoJob0 freshPlayer))⟩
        Op.reset ⟨GameState.START, freshPlayer⟩
    ∧ freshPlayer.totalMoneyEarned
        < (startJob 1 (resign (handleWorkClick demoJob0 freshPlayer))).totalMoneyEarned := by
  refine ⟨by decide, ?_, Step.reset _, by
    show (0 : ℚ) < freshPlayer.totalMoneyEarned + calculateClickEarnings demoJob0 []
    norm_num [calculateClickEarnings, freshPlayer, demoJob0]⟩
  have h1 : Reachable demoJobs ⟨GameState.WORKING, freshPlayer⟩ :=
    Reachable.step Reachable.init (Step.startCareer freshPlayer)
  have h2 : Reachable demoJobs
      ⟨GameState.WORKING, handleWorkClick demoJob0 freshPlayer⟩ :=
    Reachable.step h1 (Step.click freshPlayer demoJob0 rfl)
  have h3 : Reachable demoJobs
      ⟨GameState.CHOOSE_JOB, resign (handleWorkClick demoJob0 freshPlayer)⟩ :=
    Reachable.step h2
      (Step.resign (handleWorkClick demoJob0 freshPlayer) demoJob0 rfl
        (by decide) (by
          show demoJob0.minMoneyToResign
            ≤ freshPlayer.money + calculateClickEarnings demoJob0 []
          norm_num [calculateClickEarnings, freshPlayer, demoJob0]))
  have h4 : Reachable demoJobs
      ⟨GameState.WORKING, startJob 1 (resign (handleWorkClick demoJob0 freshPlayer))⟩ :=
    Reachable.step h3
      (Step.startJob (resign (handleWorkClick demoJob0 freshPlayer)) 1
        (by decide) (by decide) (by decide))
  exact Reachable.step h4
    (Step.conclude (startJob 1 (resign (handleWorkClick demoJob0 freshPlayer))) rfl)

/-- In every reachable configuration whose ledger state is `CHOOSE_JOB`,
`purchasedUpgrades` is empty: the only transition into `CHOOSE_JOB` is a
successful resignation, which clears the set. -/
lemma chooseJob_purchased_empty (JOBS : List Job) (c : Config)
    (hr : Reachable JOBS c) :
    c.gameState = GameState.CHOOSE_JOB → c.player.purchasedUpgrades = [] := by
  induction hr with
  | init => intro h; simp at h
  | step hr hs ih =>
      intro hgs
      cases hs with
      | startCareer p => simp at hgs
      | click p job hjob => simp at hgs
      | tick p job hjob => simp at hgs
      | buy p job u hjob hu => simp at hgs
      | spin p job now r hjob hcool => simp at hgs
      | resign p job hjob hnotlast hcan => rfl
      | startJob p i hunlocked hne hlt => simp at hgs
      | conclude p hlast => simp at hgs
      | reset p => simp at hgs

/-- Claim C1 (amended): the `startJob` handler itself never clears `purchasedUpgrades` —
it only sets `currentJobIndex` — but in every reachable execution a
`startJob` transition starts from `CHOOSE_JOB`, which is entered only
through `resign()` (which clears the set), so the state resulting from any
reachable `startJob` call still has `purchasedUpgrades` empty. -/
theorem claim_C1_startJob_purchased (JOBS : List Job) (c c' : Config)
    (i : Nat) (hr : Reachable JOBS c)
    (hs : Step JOBS c (Op.startJob i) c') :
    (startJob i c.player).purchasedUpgrades = c.player.purchasedUpgrades
    ∧ c'.player.purchasedUpgrades = [] := by
  cases hs with
  | startJob p i hunlocked hne hlt =>
      exact ⟨rfl, chooseJob_purchased_empty JOBS ⟨GameState.CHOOSE_JOB, p⟩ hr rfl⟩

/-- Witness for C1 (amended): resigning from the fresh state and signing the
next contract on the demonstration catalog. -/
theorem claim_C1_startJob_purchased_witness :
    (startJob 1 (resign freshPlayer)).purchasedUpgrades
        = (resign freshPlayer).purchasedUpgrades
    ∧ (startJob 1 (resign freshPlayer)).purchasedUpgrades = [] :=
  claim_C1_startJob_purchased demoJobs
    ⟨GameState.CHOOSE_JOB, resign freshPlayer⟩
    ⟨GameState.WORKING, startJob 1 (resign freshPlayer)⟩ 1
    (Reachable.step (Reachable.step Reachable.init (Step.startCareer freshPlayer))
      (Step.resign freshPlayer demoJob0 rfl (by decide) (by decide)))
    (Step.startJob (resign freshPlayer) 1 (by decide) (by decide) (by decide))

/-- Claim C1 counterexample: applied to a state holding upgrades of the
previous job, `startJob 1` (with `1` differing from the current index `0`)
keeps `purchasedUpgrades` exactly as they were — the function performs no
clearing, so the claimed guarantee fails for callers that do not come
through `resign()`. -/
theorem claim_C1_no_clear_counterexample :
    (1 : Nat) ≠ ({ freshPlayer with purchasedUpgrades := ["u1"], unlockedJobs := [0, 1] } : PlayerState).currentJobIndex
    ∧ (startJob 1 { freshPlayer with purchasedUpgrades := ["u1"], unlockedJobs := [0, 1] }).purchasedUpgrades = ["u1"]
    ∧ (startJob 1 { freshPlayer with purchasedUpgrades := ["u1"], unlockedJobs := [0, 1] }).purchasedUpgrades ≠ [] :=
  ⟨by decide, rfl, by decide⟩

end WorkClicker
